/-
Verification of the `hb` HTTP load-testing tool (Rust sources under `src/`).

This file gives a shallow embedding of the core of the program:
  * the index suppliers (`src/requestgen/indexseq.rs`),
  * the time-delay suppliers (`src/requestgen/timedelay.rs`),
  * the request generator (`src/requestgen/mod.rs`),
  * the worker statistics loop and result merge (`src/workers/mod.rs`),
  * the slow-request report (`src/main.rs`),
and proves or refutes the claims of the specification about them.

Modelling conventions:
  * Rust `usize`/`u64` counters are modelled as `Nat`; `u32` statistic counters
    use wrapping addition modulo `2^32` (`addU32`), matching release-mode Rust.
  * Atomic `fetch_add` counters are modelled by explicit state passing: the
    atomic serialises all calls, so the combined behaviour over all threads is a
    single sequence of calls on one evolving state.
  * Calls into the external `rand` library are modelled by their documented
    contract: `gen_range` over integers returns a value in the half-open
    interval `[low, high)` and panics when the range is empty; the value drawn
    is supplied by an oracle stream.  Panics are modelled as `none`.
  * The HDR latency histogram is modelled as the multiset of recorded values:
    all histograms in a run share one bucket configuration, so merging is exact
    and every derived quantity (percentiles included) is a function of that
    multiset.
-/
import Mathlib

namespace Hb

/-- Wrapping `u32` addition: Rust `+=` on the `u32` statistic counters. -/
def addU32 (a b : Nat) : Nat := (a + b) % 2 ^ 32

/-! ### Index suppliers — `src/requestgen/indexseq.rs`

Each supplier owns one atomic counter (`fetch_add(1, Relaxed)`), a `limit`
(the URL-list length) and a `requests` budget. -/

/-- State of `SequentialIndex`: `next` is the value of the atomic counter. -/
structure SequentialIndex where
  next : Nat
  limit : Nat
  requests : Nat
  deriving Repr, DecidableEq

/-- Rust `SequentialIndex::new(limit, requests)`. -/
def SequentialIndex.new (limit requests : Nat) : SequentialIndex :=
  { next := 0, limit := limit, requests := requests }

/-- Rust `SequentialIndex::next_index`: `fetch_add` the counter, then return
`Some(index % limit)` when `index < requests`, else `None`.
(In Rust `index % limit` would panic for `limit = 0`; all claims assume
`limit > 0`, where `%` agrees with `Nat.mod`.) -/
def SequentialIndex.next_index (s : SequentialIndex) :
    Option Nat × SequentialIndex :=
  let index := s.next
  let s' := { s with next := index + 1 }
  if index < s.requests then (some (index % s.limit), s') else (none, s')

/-- State of `RandomIndex`: `count` is the value of the atomic counter. -/
structure RandomIndex where
  count : Nat
  limit : Nat
  requests : Nat
  deriving Repr, DecidableEq

/-- Rust `RandomIndex::new(limit, requests)`. -/
def RandomIndex.new (limit requests : Nat) : RandomIndex :=
  { count := 0, limit := limit, requests := requests }

/-- Rust `RandomIndex::next_index`: `fetch_add` the counter, then, while under
budget, draw `thread_rng().gen_range(0..limit)`.  The draw is modelled by an
oracle stream `rng`; reducing the oracle value mod `limit` realises the
`rand` contract that the result lies in `[0, limit)` (for `limit > 0`). -/
def RandomIndex.next_index (rng : Nat → Nat) (s : RandomIndex) :
    Option Nat × RandomIndex :=
  let count := s.count
  let s' := { s with count := count + 1 }
  if count < s.requests then (some (rng count % s.limit), s') else (none, s')

/-- The `Box<dyn IndexSupplier>` produced by `create_supplier`. -/
inductive IndexSupplier where
  | sequential : SequentialIndex → IndexSupplier
  | random : RandomIndex → IndexSupplier
  deriving Repr, DecidableEq

/-- Trait dispatch of `IndexSupplier::next_index`. -/
def IndexSupplier.next_index (rng : Nat → Nat) :
    IndexSupplier → Option Nat × IndexSupplier
  | .sequential s =>
      let r := s.next_index
      (r.1, .sequential r.2)
  | .random s =>
      let r := s.next_index rng
      (r.1, .random r.2)

/-- The request order of the configuration (`config.rs`). -/
inductive RequestOrder where
  | sequential
  | random
  deriving Repr, DecidableEq

/-- Rust `create_supplier(order, index_limit, num_requests)`. -/
def create_supplier (order : RequestOrder) (index_limit num_requests : Nat) :
    IndexSupplier :=
  match order with
  | .sequential => .sequential (SequentialIndex.new index_limit num_requests)
  | .random => .random (RandomIndex.new index_limit num_requests)

/-- The combined sequence of the first `n` results of `next_index`, over all
callers: the atomic counter serialises the calls, so any interleaving of
threads produces this sequence of values (which caller sees which value is
unspecified). -/
def runSupplier (rng : Nat → Nat) : IndexSupplier → Nat → List (Option Nat)
  | _, 0 => []
  | s, n + 1 =>
      let r := s.next_index rng
      r.1 :: runSupplier rng r.2 n

/-! ### Time-delay suppliers — `src/requestgen/timedelay.rs`

`create_supplier` converts the configured `delay_ms : u32` into microseconds
(`delay_us = delay_ms * 1000`) and builds one of three suppliers. -/

/-- The delay distribution of the configuration (`config.rs`). -/
inductive DelayDistribution where
  | constant
  | uniform
  | negativeExponential
  deriving Repr, DecidableEq

/-- Contract of the `rand` library's integer `gen_range(low, high)`: a value
uniform in the half-open range `[low, high)`; the call panics (modelled as
`none`) when the range is empty.  `v` is the oracle value for the draw. -/
def gen_range (v low high : Nat) : Option Nat :=
  if low < high then some (low + v % (high - low)) else none

/-- Rust `ConstantDelay`: a fixed delay in microseconds. -/
structure ConstantDelay where
  delay : Nat
  deriving Repr, DecidableEq

/-- Rust `ConstantDelay::next_delay`. -/
def ConstantDelay.next_delay (c : ConstantDelay) : Nat := c.delay

/-- Rust `UniformDelay`: upper bound in microseconds. -/
structure UniformDelay where
  bound_us : Nat
  deriving Repr, DecidableEq

/-- Rust `UniformDelay::next_delay`: `thread_rng().gen_range(0, self.bound_us)`
(a result of `none` models the `rand` panic on an empty range). -/
def UniformDelay.next_delay (v : Nat) (u : UniformDelay) : Option Nat :=
  gen_range v 0 u.bound_us

/-- Rust `NegativeExponentialDelay`: `z_neg = -1.0 * delay_us`. -/
structure NegativeExponentialDelay where
  z_neg : Int
  deriving Repr, DecidableEq

/-- Support of the uniform draw `u = thread_rng().gen_range(0f64, 1f64)` made
by `NegativeExponentialDelay::next_delay` (and of the `f32` draw of the same
shape in `src/timedelay/mod.rs`): by the `rand` contract, `gen_range(low,
high)` on floats samples the half-open interval `[low, high)`.  The subsequent
float computation `(z_neg * u.ln()) as u64` is not modelled; the claim about
this supplier concerns only the range of `u`. -/
def NegativeExponentialDelay.draw_support : Set ℚ := { u : ℚ | 0 ≤ u ∧ u < 1 }

/-! ### Request generator — `src/requestgen/mod.rs` -/

/-- Rust `Request`: the URL drawn and the sleep before dispatch (µs). -/
structure Request where
  url : String
  sleep : Nat
  deriving Repr, DecidableEq

/-- The `Box<dyn TimeDelaySupplier>` produced by the time-delay
`create_supplier`. -/
inductive TimeDelaySupplier where
  | constant : ConstantDelay → TimeDelaySupplier
  | uniform : UniformDelay → TimeDelaySupplier
  | negExp : NegativeExponentialDelay → TimeDelaySupplier
  deriving Repr, DecidableEq

/-- Trait dispatch of `TimeDelaySupplier::next_delay` on the oracle value `v`
of this draw.  `ConstantDelay` returns its fixed delay; `UniformDelay` is
`gen_range(0, bound_us)`, which panics (`none`) on an empty range;
`NegativeExponentialDelay` draws from the nonempty float range `[0, 1)` and
its `(z_neg * u.ln()) as u64` cast always produces a `u64` (saturating), so
the call always returns — the float value itself is not modelled and is
supplied by the oracle. -/
def TimeDelaySupplier.next_delay (v : Nat) :
    TimeDelaySupplier → Option Nat
  | .constant c => some c.next_delay
  | .uniform u => u.next_delay v
  | .negExp _ => some v

/-- Rust `timedelay::create_supplier(delay_ms, distrib)`: convert to
microseconds (`delay_us = delay_ms * 1000`) and build the supplier. -/
def timedelay_create_supplier (delay_ms : Nat) (distrib : DelayDistribution) :
    TimeDelaySupplier :=
  match distrib with
  | .constant => .constant { delay := delay_ms * 1000 }
  | .uniform => .uniform { bound_us := delay_ms * 1000 }
  | .negativeExponential => .negExp { z_neg := -(delay_ms * 1000 : Int) }

/-- Rust `RequestGenerator`: the URL list, the boxed index supplier, the
boxed time-delay supplier and the shared progress counter. -/
structure RequestGenerator where
  urls : List String
  url_index_supplier : IndexSupplier
  time_delay_supplier : TimeDelaySupplier
  progress : Nat

/-- Rust `RequestGenerator::new(config)`: the index supplier is built with
`index_limit = urls.len()` and `num_requests = config.requests`, the delay
supplier from `config.delay_ms` and `config.delay_distrib`; the progress bar
starts at zero. -/
def RequestGenerator.new (urls : List String) (order : RequestOrder)
    (requests delay_ms : Nat) (distrib : DelayDistribution) :
    RequestGenerator :=
  { urls := urls
    url_index_supplier := create_supplier order urls.length requests
    time_delay_supplier := timedelay_create_supplier delay_ms distrib
    progress := 0 }

/-- Rust `RequestGenerator::next`: map over `next_index()`; on `Some i` look
up the URL, draw the next delay and bump progress.  The outer `Option` models
termination of the call: `none` is a panic escaping from `next_delay()`
(before the progress bump), `some none` the exhausted budget, `some (some r)`
a returned request.  `delayRng` is the oracle stream for the delay draws;
`urls[i]` is total here via `getD`, the index-in-bounds invariant being
proved separately. -/
def RequestGenerator.next (rng delayRng : Nat → Nat)
    (g : RequestGenerator) :
    Option (Option Request) × RequestGenerator :=
  let r := g.url_index_supplier.next_index rng
  match r.1 with
  | none => (some none, { g with url_index_supplier := r.2 })
  | some i =>
      let url := g.urls.getD i ""
      match g.time_delay_supplier.next_delay (delayRng g.progress) with
      | none => (none, { g with url_index_supplier := r.2 })
      | some sleep =>
          (some (some { url := url, sleep := sleep }),
           { g with url_index_supplier := r.2, progress := g.progress + 1 })

/-- Did this call return `Some(request)` (as opposed to exhaustion or a
panic)? -/
def returnedSome (r : Option (Option Request)) : Bool :=
  ((r.getD none).isSome)

/-- The combined sequence of the first `n` results of `RequestGenerator.next`
over all callers (the single atomic counter inside the supplier serialises
the calls; a panic kills only the calling worker, the shared generator state
remains for the other callers). -/
def runGen (rng delayRng : Nat → Nat) :
    RequestGenerator → Nat → List (Option (Option Request))
  | _, 0 => []
  | g, n + 1 =>
      let r := g.next rng delayRng
      r.1 :: runGen rng delayRng r.2 n

/-! ### Worker statistics — `src/workers/mod.rs`

`BenchResult` holds a `HashMap<u16, u32>` of status counts (modelled as a
total function that is zero off its support), two `u32` error counters, the
HDR latency histogram (modelled as the multiset of recorded values) and the
`Vec<(usize, u64)>` of per-request samples. -/

/-- Rust `BenchResult`. -/
structure BenchResult where
  status : Nat → Nat
  request_errors : Nat
  response_errors : Nat
  latency : Multiset Nat
  request_times : List (Nat × Nat)

/-- Rust `BenchResult::new()`: empty map, zero counters, empty histogram
(`Histogram::new_with_bounds(1, 100_000, 2)`), empty sample list. -/
def BenchResult.new : BenchResult :=
  { status := fun _ => 0
    request_errors := 0
    response_errors := 0
    latency := 0
    request_times := [] }

/-- Rust `BenchResult::add_to(&mut self, summary)`: key-wise add the status
counts into `summary`, add both error counters, merge the histogram (lossless:
identical bucket configuration), and append `self`'s samples to `summary`'s
list. -/
def BenchResult.add_to (self summary : BenchResult) : BenchResult :=
  { status := fun code => addU32 (summary.status code) (self.status code)
    request_errors := addU32 summary.request_errors self.request_errors
    response_errors := addU32 summary.response_errors self.response_errors
    latency := summary.latency + self.latency
    request_times := summary.request_times ++ self.request_times }

/-- The merge loop at the end of `run_test`: fold the workers' local results
into a fresh `BenchResult` in the order the workers pushed them. -/
def merge_results (results : List BenchResult) : BenchResult :=
  results.foldl (fun merged result => result.add_to merged) BenchResult.new

/-- Outcome of one `ureq` request, per the `ureq` API contract:
`Ok(response)` carries a received response with status `< 400` (`drainErr`
records whether draining the body failed, `durationMs` the measured elapsed
time); `Error::Status(code, response)` is a received response whose status
line carries `code ≥ 400`; `Error::Transport` means the transport produced no
response at all. -/
inductive UreqResult where
  | ok (status : Nat) (drainErr : Bool) (durationMs : Nat)
  | errStatus (code : Nat)
  | errTransport
  deriving Repr, DecidableEq

/-- Does this outcome carry a received response with a status line? -/
def UreqResult.hasStatusLine : UreqResult → Bool
  | .ok _ _ _ => true
  | .errStatus _ => true
  | .errTransport => false

/-- The duration the statistics-tracking code ends up with for one draw:
`let mut duration = 0` is overwritten only in the `Ok` arm. -/
def UreqResult.trackedDuration : UreqResult → Nat
  | .ok _ _ d => d
  | .errStatus _ => 0
  | .errTransport => 0

/-- One iteration of the statistics tracking in `run_worker`
(`src/workers/mod.rs` lines 158–189): the `match` on the `ureq` outcome,
followed by the unconditional `result.latency += duration` and
`result.request_times.push((url_index, duration))`.  A result of `none` models
the `panic!` in the `Error::Transport` arm. -/
def track_response (result : BenchResult) (url_index : Nat)
    (resp : UreqResult) : Option BenchResult :=
  match resp with
  | .ok status drainErr duration =>
      let r1 := { result with
        status := fun c =>
          if c = status then addU32 (result.status c) 1 else result.status c }
      let r2 := if drainErr then
          { r1 with response_errors := addU32 r1.response_errors 1 }
        else r1
      some { r2 with
        latency := r2.latency + {duration}
        request_times := r2.request_times ++ [(url_index, duration)] }
  | .errStatus _ =>
      let r1 := { result with
        request_errors := addU32 result.request_errors 1 }
      some { r1 with
        latency := r1.latency + {(0 : Nat)}
        request_times := r1.request_times ++ [(url_index, 0)] }
  | .errTransport => none

/-- The `while let Some(hb_request) = request_generator.next()` loop of
`run_worker`, applied to the sequence of draws this worker obtained, each draw
paired with the outcome the transport produced for it.  `none` models a panic
aborting the worker (a panic stops the loop; every later draw is lost). -/
def run_worker (draws : List (Nat × UreqResult)) : Option BenchResult :=
  draws.foldl
    (fun acc d => acc.bind (fun r => track_response r d.1 d.2))
    (some BenchResult.new)

/-! ### Slow-request report — `src/main.rs` (`print_slow_report`)

The report receives the aggregate's `request_times`, the URL list and the
percentile cutoff.  `summary.latency.value_at_percentile(slow_percentile)` is
an external `hdrhistogram` query; the model takes the resulting `lower_bound`
as an input, which is all the claim uses ("a cutoff = histogram value at
percentile P"). -/

/-- Rust `u64::MAX`, the seed of the min-fold. -/
def u64MAX : Nat := 2 ^ 64 - 1

/-- Rust `ReportLine` (URL string, sample count, min/max/avg latency). -/
structure ReportLine where
  url : String
  count : Nat
  min : Nat
  max : Nat
  avg : Nat
  deriving Repr, DecidableEq

/-- Append one duration to the entry of `url` in the accumulating per-URL
statistics (`url_stats.entry(url).or_insert_with(Vec::new).push(duration)`).
The `HashMap` is modelled as an association list keyed by first occurrence;
its iteration order is unspecified in Rust, and no claim depends on it. -/
def pushDuration (stats : List (String × List Nat)) (url : String) (d : Nat) :
    List (String × List Nat) :=
  match stats with
  | [] => [(url, [d])]
  | (u, ds) :: rest =>
      if u = url then (u, ds ++ [d]) :: rest
      else (u, ds) :: pushDuration rest url d

/-- The grouping loop of `print_slow_report`: for every `(url_index,
duration)` sample, push `duration` onto the bucket of `urls[url_index]`. -/
def url_stats (urls : List String) (request_times : List (Nat × Nat)) :
    List (String × List Nat) :=
  request_times.foldl
    (fun stats p => pushDuration stats (urls.getD p.1 "") p.2) []

/-- The `(min, max, sum)` fold over one URL's durations, seeded with
`(u64::MAX, 0, 0)`; the sum is a `u64` addition (wrapping modulo `2^64`). -/
def foldStats (durations : List Nat) : Nat × Nat × Nat :=
  durations.foldl
    (fun state d =>
      (Nat.min state.1 d, Nat.max state.2.1 d, (state.2.2 + d) % 2 ^ 64))
    (u64MAX, 0, 0)

/-- The `filter_map` body of `print_slow_report`: drop the URL when its max
latency is below the cutoff, otherwise emit its report line with
`avg = sum / count` (integer division). -/
def reportLine (lower_bound : Nat) (p : String × List Nat) :
    Option ReportLine :=
  let s := foldStats p.2
  if s.2.1 < lower_bound then none
  else
    some { url := p.1, count := p.2.length, min := s.1, max := s.2.1,
           avg := s.2.2 / p.2.length }

/-- Rust `print_slow_report` up to rendering: group the samples by URL, keep
the URLs whose max latency reaches `lower_bound`, and stable-sort the lines by
descending max latency (`lines.sort_by(|l, r| r.max.cmp(&l.max))`). -/
def slowLines (urls : List String) (request_times : List (Nat × Nat))
    (lower_bound : Nat) : List ReportLine :=
  let lines := (url_stats urls request_times).filterMap (reportLine lower_bound)
  lines.mergeSort (fun l r => decide (r.max ≤ l.max))

/-! ### Helper lemmas: the index-supplier run sequences -/

/-- Component form of `SequentialIndex.next_index`. -/
lemma seq_next_index_eq (s : SequentialIndex) :
    s.next_index
      = ((if s.next < s.requests then some (s.next % s.limit) else none),
         { s with next := s.next + 1 }) := by
  by_cases h : s.next < s.requests <;> simp [SequentialIndex.next_index, h]

/-- Component form of `RandomIndex.next_index`. -/
lemma rand_next_index_eq (rng : Nat → Nat) (s : RandomIndex) :
    s.next_index rng
      = ((if s.count < s.requests then some (rng s.count % s.limit) else none),
         { s with count := s.count + 1 }) := by
  by_cases h : s.count < s.requests <;> simp [RandomIndex.next_index, h]

/-- Closed form of a sequential run starting from counter value `c`. -/
lemma runSupplier_sequential (rng : Nat → Nat) (L R c n : Nat) :
    runSupplier rng (.sequential { next := c, limit := L, requests := R }) n
      = (List.range n).map
          (fun i => if c + i < R then some ((c + i) % L) else none) := by
  induction n generalizing c with
  | zero => simp [runSupplier]
  | succ n ih =>
      have hmap : (List.range (n + 1)).map
            (fun i => if c + i < R then some ((c + i) % L) else none)
          = (if c < R then some (c % L) else none)
            :: (List.range n).map
                (fun i => if c + 1 + i < R then some ((c + 1 + i) % L)
                  else none) := by
        rw [List.range_succ_eq_map, List.map_cons, List.map_map]
        refine congrArg₂ List.cons (by simp) (List.map_congr_left ?_)
        intro i _
        have hc : c + (i + 1) = c + 1 + i := by omega
        simp only [Function.comp_apply, Nat.succ_eq_add_one, hc]
      rw [hmap]
      by_cases h : c < R <;>
        simp only [runSupplier, IndexSupplier.next_index,
          SequentialIndex.next_index, if_pos, if_neg, h, ite_true, ite_false,
          ih (c + 1)]

/-- Closed form of a random run starting from counter value `c`. -/
lemma runSupplier_random (rng : Nat → Nat) (L R c n : Nat) :
    runSupplier rng (.random { count := c, limit := L, requests := R }) n
      = (List.range n).map
          (fun i => if c + i < R then some (rng (c + i) % L) else none) := by
  induction n generalizing c with
  | zero => simp [runSupplier]
  | succ n ih =>
      have hmap : (List.range (n + 1)).map
            (fun i => if c + i < R then some (rng (c + i) % L) else none)
          = (if c < R then some (rng c % L) else none)
            :: (List.range n).map
                (fun i => if c + 1 + i < R then some (rng (c + 1 + i) % L)
                  else none) := by
        rw [List.range_succ_eq_map, List.map_cons, List.map_map]
        refine congrArg₂ List.cons (by simp) (List.map_congr_left ?_)
        intro i _
        have hc : c + (i + 1) = c + 1 + i := by omega
        simp only [Function.comp_apply, Nat.succ_eq_add_one, hc]
      rw [hmap]
      by_cases h : c < R <;>
        simp only [runSupplier, IndexSupplier.next_index,
          RandomIndex.next_index, if_pos, if_neg, h, ite_true, ite_false,
          ih (c + 1)]

/-- Counting the positions of `List.range n` that are under the budget. -/
lemma countP_range_lt (n c R : Nat) :
    (List.range n).countP (fun i => decide (c + i < R)) = min (R - c) n := by
  induction n generalizing c with
  | zero => simp
  | succ n ih =>
      rw [List.range_succ_eq_map, List.countP_cons, List.countP_map]
      have h1 : (List.range n).countP
          ((fun i => decide (c + i < R)) ∘ Nat.succ)
            = (List.range n).countP (fun i => decide (c + 1 + i < R)) := by
        apply List.countP_congr
        intro i _
        simp only [Function.comp_apply, Nat.succ_eq_add_one,
          decide_eq_true_eq]
        omega
      rw [h1, ih (c + 1)]
      by_cases h : c < R
      · have hd : decide (c + 0 < R) = true := by simpa using h
        rw [hd, if_pos rfl]
        omega
      · have hd : decide (c + 0 < R) = false := by simpa using h
        rw [hd]
        simp only [Bool.false_eq_true, if_false]
        omega

/-- Mapping a budget-truncated sequence through `filterMap id`: only the
first `R` positions survive. -/
lemma filterMap_budget_map (f : Nat → Nat) (R k : Nat) :
    ((List.range (R + k)).map
        (fun i => if i < R then some (f i) else none)).filterMap id
      = (List.range R).map f := by
  induction k with
  | zero =>
      have hall : ∀ l : List Nat, (∀ i ∈ l, i < R) →
          (l.map (fun i => if i < R then some (f i) else none)).filterMap id
            = l.map f := by
        intro l
        induction l with
        | nil => intro _; simp
        | cons a t iht =>
            intro hmem
            have ha : a < R := hmem a (by simp)
            simp only [List.map_cons, List.filterMap_cons, if_pos ha, id]
            rw [iht (fun i hi => hmem i (by simp [hi]))]
      exact hall (List.range R) (fun i hi => List.mem_range.mp hi)
  | succ k ih =>
      have : R + (k + 1) = (R + k) + 1 := by omega
      rw [this, List.range_succ, List.map_append, List.filterMap_append, ih]
      have hko : ¬ R + k < R := by omega
      simp [hko]

/-! ### Claim theorems C3, C4, C1 -/

/-- C3: for `limit > 0` and any `requests`, the sequential supplier's global
call sequence has `i`-th result `some (i % limit)` for `i < requests` and
`none` for every later call; consequently the successful results over any run
of at least `requests` calls are exactly `[0 % limit, 1 % limit, …,
(requests-1) % limit]` (e.g. `limit = 2`, `requests = 5` gives
`[0, 1, 0, 1, 0]`, see the witness). -/
theorem C3_sequential_mod_sequence (rng : Nat → Nat)
    (limit requests n k : Nat) (h : 0 < limit) :
    (runSupplier rng (create_supplier .sequential limit requests) n
      = (List.range n).map
          (fun i => if i < requests then some (i % limit) else none))
    ∧ ((runSupplier rng (create_supplier .sequential limit requests)
          (requests + k)).filterMap id
        = (List.range requests).map (fun i => i % limit)) := by
  have hrun : ∀ m, runSupplier rng (create_supplier .sequential limit requests) m
      = (List.range m).map
          (fun i => if i < requests then some (i % limit) else none) := by
    intro m
    rw [show create_supplier .sequential limit requests
        = .sequential { next := 0, limit := limit, requests := requests }
      from rfl]
    rw [runSupplier_sequential]
    apply List.map_congr_left
    intro i _
    simp
  refine ⟨hrun n, ?_⟩
  rw [hrun (requests + k), filterMap_budget_map]

/-- Witness for C3 at `limit = 2`, `requests = 5`: the run is
`[0, 1, 0, 1, 0]`. -/
theorem C3_sequential_mod_sequence_witness :
    0 < 2
    ∧ runSupplier (fun _ => 0) (create_supplier .sequential 2 5) 5
        = [some 0, some 1, some 0, some 1, some 0]
    ∧ (runSupplier (fun _ => 0) (create_supplier .sequential 2 5)
          (5 + 2)).filterMap id
        = [0, 1, 0, 1, 0] := by
  have h := C3_sequential_mod_sequence (fun _ => 0) 2 5 5 2 (by decide)
  exact ⟨by decide, by rw [h.1]; decide, by rw [h.2]; decide⟩

/-- C4: for `limit > 0`, neither supplier ever yields an index `≥ limit`, and
the random supplier yields exactly `requests` successful draws over any run of
at least `requests` calls, every one of them in `[0, limit)`. -/
theorem C4_index_supplier_bounds (rng : Nat → Nat) (limit requests n : Nat)
    (h : 0 < limit) :
    (∀ v, some v ∈ runSupplier rng (create_supplier .sequential limit requests) n
      → v < limit)
    ∧ (∀ v, some v ∈ runSupplier rng (create_supplier .random limit requests) n
      → v < limit)
    ∧ (requests ≤ n →
        (runSupplier rng (create_supplier .random limit requests) n).countP
          (fun r => r.isSome) = requests) := by
  have hseq : runSupplier rng (create_supplier .sequential limit requests) n
      = (List.range n).map
          (fun i => if 0 + i < requests then some ((0 + i) % limit) else none) :=
    runSupplier_sequential rng limit requests 0 n
  have hrand : runSupplier rng (create_supplier .random limit requests) n
      = (List.range n).map
          (fun i => if 0 + i < requests then some (rng (0 + i) % limit)
            else none) :=
    runSupplier_random rng limit requests 0 n
  refine ⟨?_, ?_, ?_⟩
  · intro v hv
    rw [hseq] at hv
    obtain ⟨i, -, hi⟩ := List.mem_map.mp hv
    by_cases hib : 0 + i < requests
    · rw [if_pos hib] at hi
      obtain rfl : (0 + i) % limit = v := Option.some.inj hi
      exact Nat.mod_lt _ h
    · rw [if_neg hib] at hi
      cases hi
  · intro v hv
    rw [hrand] at hv
    obtain ⟨i, -, hi⟩ := List.mem_map.mp hv
    by_cases hib : 0 + i < requests
    · rw [if_pos hib] at hi
      obtain rfl : rng (0 + i) % limit = v := Option.some.inj hi
      exact Nat.mod_lt _ h
    · rw [if_neg hib] at hi
      cases hi
  · intro hn
    rw [hrand, List.countP_map]
    have hc : (List.range n).countP
        ((fun r : Option Nat => r.isSome)
          ∘ fun i => if 0 + i < requests then some (rng (0 + i) % limit)
            else none)
          = (List.range n).countP (fun i => decide (0 + i < requests)) := by
      apply List.countP_congr
      intro i _
      by_cases hib : 0 + i < requests <;>
        simp [Function.comp, hib]
    rw [hc, countP_range_lt]
    omega

/-- Witness for C4 at `limit = 3`, `requests = 4`, `n = 6`, a concrete
oracle. -/
theorem C4_index_supplier_bounds_witness :
    0 < 3
    ∧ (∀ v, some v ∈ runSupplier (fun k => 7 * k + 5)
        (create_supplier .sequential 3 4) 6 → v < 3)
    ∧ (∀ v, some v ∈ runSupplier (fun k => 7 * k + 5)
        (create_supplier .random 3 4) 6 → v < 3)
    ∧ (runSupplier (fun k => 7 * k + 5)
        (create_supplier .random 3 4) 6).countP (fun r => r.isSome) = 4 := by
  have h := C4_index_supplier_bounds (fun k => 7 * k + 5) 3 4 6 (by decide)
  exact ⟨by decide, h.1, h.2.1, h.2.2 (by decide)⟩

/-- The shared atomic counter behind either supplier. -/
def IndexSupplier.counter : IndexSupplier → Nat
  | .sequential s => s.next
  | .random s => s.count

/-- The request budget of either supplier. -/
def IndexSupplier.budget : IndexSupplier → Nat
  | .sequential s => s.requests
  | .random s => s.requests

lemma next_index_isSome (rng : Nat → Nat) (s : IndexSupplier) :
    ((s.next_index rng).1).isSome = decide (s.counter < s.budget) := by
  cases s <;>
    simp only [IndexSupplier.next_index, IndexSupplier.counter,
      IndexSupplier.budget, seq_next_index_eq,
      rand_next_index_eq] <;>
    split <;> simp_all

lemma next_index_counter (rng : Nat → Nat) (s : IndexSupplier) :
    (s.next_index rng).2.counter = s.counter + 1 := by
  cases s <;>
    simp [IndexSupplier.next_index, IndexSupplier.counter,
      seq_next_index_eq, rand_next_index_eq]

lemma next_index_budget (rng : Nat → Nat) (s : IndexSupplier) :
    (s.next_index rng).2.budget = s.budget := by
  cases s <;>
    simp [IndexSupplier.next_index, IndexSupplier.budget,
      seq_next_index_eq, rand_next_index_eq]

lemma gen_next_returnedSome (rng delayRng : Nat → Nat)
    (g : RequestGenerator)
    (hd : ∀ v, (g.time_delay_supplier.next_delay v).isSome = true) :
    returnedSome (g.next rng delayRng).1
      = ((g.url_index_supplier.next_index rng).1).isSome := by
  cases h : (g.url_index_supplier.next_index rng).1 with
  | none => simp [RequestGenerator.next, h, returnedSome]
  | some i =>
      have hv := hd (delayRng g.progress)
      cases hx : g.time_delay_supplier.next_delay (delayRng g.progress) with
      | none => rw [hx] at hv; cases hv
      | some sleep => simp [RequestGenerator.next, h, hx, returnedSome]

lemma gen_next_supplier (rng delayRng : Nat → Nat) (g : RequestGenerator) :
    (g.next rng delayRng).2.url_index_supplier
      = (g.url_index_supplier.next_index rng).2 := by
  cases h : (g.url_index_supplier.next_index rng).1 with
  | none => simp [RequestGenerator.next, h]
  | some i =>
      cases hx : g.time_delay_supplier.next_delay (delayRng g.progress) with
      | none => simp [RequestGenerator.next, h, hx]
      | some sleep => simp [RequestGenerator.next, h, hx]

lemma gen_next_delay_supplier (rng delayRng : Nat → Nat)
    (g : RequestGenerator) :
    (g.next rng delayRng).2.time_delay_supplier = g.time_delay_supplier := by
  cases h : (g.url_index_supplier.next_index rng).1 with
  | none => simp [RequestGenerator.next, h]
  | some i =>
      cases hx : g.time_delay_supplier.next_delay (delayRng g.progress) with
      | none => simp [RequestGenerator.next, h, hx]
      | some sleep => simp [RequestGenerator.next, h, hx]

/-- An exhausted-budget call returns `Some(none)` — it never reaches the
delay draw, so this holds for every configuration. -/
lemma gen_next_exhausted (rng delayRng : Nat → Nat) (g : RequestGenerator)
    (h : g.url_index_supplier.budget ≤ g.url_index_supplier.counter) :
    (g.next rng delayRng).1 = some none := by
  have hs : ((g.url_index_supplier.next_index rng).1).isSome = false := by
    rw [next_index_isSome]
    simp only [decide_eq_false_iff_not]
    omega
  have hn : (g.url_index_supplier.next_index rng).1 = none := by
    cases hx : (g.url_index_supplier.next_index rng).1
    · rfl
    · rw [hx] at hs; cases hs
  simp [RequestGenerator.next, hn]

/-- Counting the successful draws of a generator run whose delay supplier
never panics. -/
lemma runGen_countP (rng delayRng : Nat → Nat) (n : Nat) :
    ∀ g : RequestGenerator,
      (∀ v, (g.time_delay_supplier.next_delay v).isSome = true) →
      (runGen rng delayRng g n).countP returnedSome
        = min (g.url_index_supplier.budget - g.url_index_supplier.counter)
            n := by
  induction n with
  | zero => intro g _; simp [runGen]
  | succ n ih =>
      intro g hd
      rw [show runGen rng delayRng g (n + 1)
          = (g.next rng delayRng).1
            :: runGen rng delayRng (g.next rng delayRng).2 n from rfl]
      have hd' : ∀ v,
          (((g.next rng delayRng).2).time_delay_supplier.next_delay
            v).isSome = true := by
        intro v
        rw [gen_next_delay_supplier]
        exact hd v
      rw [List.countP_cons, ih _ hd', gen_next_supplier, next_index_counter,
        next_index_budget]
      by_cases h : g.url_index_supplier.counter < g.url_index_supplier.budget
      · have hs : returnedSome (g.next rng delayRng).1 = true := by
          rw [gen_next_returnedSome rng delayRng g hd, next_index_isSome]
          simpa using h
        rw [hs, if_pos rfl]
        omega
      · have hs : returnedSome (g.next rng delayRng).1 = false := by
          rw [gen_next_returnedSome rng delayRng g hd, next_index_isSome]
          simpa using h
        rw [hs]
        simp only [Bool.false_eq_true, if_false]
        omega

/-- Every call at a position at or past the budget returns `Some(none)` —
the exhausted path never draws a delay, so no panic-freeness is needed. -/
lemma runGen_getD_exhausted (rng delayRng : Nat → Nat) (n : Nat) :
    ∀ (g : RequestGenerator) (i : Nat),
      g.url_index_supplier.budget ≤ g.url_index_supplier.counter + i →
      (runGen rng delayRng g n).getD i (some none) = some none := by
  induction n with
  | zero => intro g i _; simp [runGen]
  | succ n ih =>
      intro g i h
      rw [show runGen rng delayRng g (n + 1)
          = (g.next rng delayRng).1
            :: runGen rng delayRng (g.next rng delayRng).2 n from rfl]
      cases i with
      | zero =>
          have hh := gen_next_exhausted rng delayRng g (by omega)
          simp [hh]
      | succ i =>
          simp only [List.getD_cons_succ]
          apply ih
          rw [gen_next_supplier, next_index_counter, next_index_budget]
          omega

lemma create_supplier_counter (order : RequestOrder) (L R : Nat) :
    (create_supplier order L R).counter = 0 := by
  cases order <;> rfl

lemma create_supplier_budget (order : RequestOrder) (L R : Nat) :
    (create_supplier order L R).budget = R := by
  cases order <;> rfl

/-- C1 fails on the code at the spec-valid configuration {uniform delay
distribution, delay = 0, requests = 1}: the very first call to `next()`
obtains an index (the budget is not exhausted) but then panics inside
`UniformDelay::next_delay` — `gen_range(0, 0)` on an empty range — instead of
returning `Some`, so over the whole run zero calls return `Some`, not
exactly `R = 1`. -/
theorem C1_uniform_zero_delay_first_call_panics :
    ((RequestGenerator.new ["http://one"] .sequential 1 0
        .uniform).next (fun _ => 0) (fun _ => 0)).1 = none
    ∧ (runGen (fun _ => 0) (fun _ => 0)
        (RequestGenerator.new ["http://one"] .sequential 1 0 .uniform)
          1).countP returnedSome = 0 := by decide

/-- C1 amended: for every configuration whose delay supplier cannot panic —
constant or negative-exponential distribution at any delay, and uniform at
delay > 0; i.e. every configuration except uniform with delay 0 — the
generator hands out exactly `R` requests across all calls combined: over any
run of `n ≥ R` calls (any ordering mode, any oracle streams) exactly `R`
calls return `Some`; the call at every position `≥ R` returns `None`; and
`R = 0` makes the very first call return `None`.  At the excluded
configuration `next()` instead panics on every in-budget call
(`C1_uniform_zero_delay_first_call_panics`). -/
theorem C1_generator_exactly_requests (urls : List String)
    (order : RequestOrder) (requests delay_ms : Nat)
    (distrib : DelayDistribution) (rng delayRng : Nat → Nat) (n : Nat)
    (hnp : distrib = .uniform → 0 < delay_ms) :
    (requests ≤ n →
      (runGen rng delayRng
        (RequestGenerator.new urls order requests delay_ms distrib)
          n).countP returnedSome = requests)
    ∧ (∀ i, requests ≤ i →
        (runGen rng delayRng
          (RequestGenerator.new urls order requests delay_ms distrib)
            n).getD i (some none) = some none)
    ∧ (requests = 0 → 0 < n →
        (runGen rng delayRng
          (RequestGenerator.new urls order requests delay_ms distrib)
            n).getD 0 (some none) = some none) := by
  have hd : ∀ v, ((RequestGenerator.new urls order requests delay_ms
      distrib).time_delay_supplier.next_delay v).isSome = true := by
    intro v
    cases distrib with
    | constant => rfl
    | uniform =>
        have hb : 0 < delay_ms * 1000 := by
          have := hnp rfl
          omega
        simp [RequestGenerator.new, timedelay_create_supplier,
          TimeDelaySupplier.next_delay, UniformDelay.next_delay, gen_range,
          hb]
    | negativeExponential => rfl
  have hsup : (RequestGenerator.new urls order requests delay_ms
        distrib).url_index_supplier
      = create_supplier order urls.length requests := rfl
  refine ⟨?_, ?_, ?_⟩
  · intro hn
    rw [runGen_countP rng delayRng n _ hd, hsup, create_supplier_counter,
      create_supplier_budget]
    omega
  · intro i hi
    apply runGen_getD_exhausted
    rw [hsup, create_supplier_counter, create_supplier_budget]
    omega
  · intro h0 _
    apply runGen_getD_exhausted
    rw [hsup, create_supplier_counter, create_supplier_budget]
    omega

/-- Witness for C1 amended: two URLs, constant delay 1 ms, budget 2, three
calls — two `Some`s, call 2 returns `None`; and a budget-0 generator returns
`None` on the very first call. -/
theorem C1_generator_exactly_requests_witness :
    (2 ≤ 3
      ∧ (runGen (fun _ => 0) (fun _ => 0)
          (RequestGenerator.new ["http://one", "http://two"] .sequential 2 1
            .constant) 3).countP returnedSome = 2)
    ∧ (2 ≤ 2
      ∧ (runGen (fun _ => 0) (fun _ => 0)
          (RequestGenerator.new ["http://one", "http://two"] .sequential 2 1
            .constant) 3).getD 2 (some none) = some none)
    ∧ (0 < 1
      ∧ (runGen (fun _ => 0) (fun _ => 0)
          (RequestGenerator.new ["http://one", "http://two"] .random 0 1
            .constant) 1).getD 0 (some none) = some none) := by
  have h1 := C1_generator_exactly_requests ["http://one", "http://two"]
    .sequential 2 1 .constant (fun _ => 0) (fun _ => 0) 3 (by decide)
  have h2 := C1_generator_exactly_requests ["http://one", "http://two"]
    .random 0 1 .constant (fun _ => 0) (fun _ => 0) 1 (by decide)
  exact ⟨⟨by decide, h1.1 (by decide)⟩,
         ⟨by decide, h1.2.1 2 (by decide)⟩,
         ⟨by decide, h2.2.2 rfl (by decide)⟩⟩

/-! ### Claim theorems C8, C9 (delay suppliers) -/

/-- C8 fails on the code: the negative-exponential supplier draws
`gen_range(0f64, 1f64)` (respectively `gen_range(0f32, 1f32)` in
`src/timedelay/mod.rs`), whose support is the half-open interval `[0, 1)`:
the value `U = 0` is a possible draw, contradicting the claim that every
draw satisfies `U > 0` (and at `U = 0` the logarithm in
`delay * -ln(U)` is undefined). -/
theorem C8_zero_draw_in_support :
    (0 : ℚ) ∈ NegativeExponentialDelay.draw_support ∧ ¬ (0 : ℚ) < 0 := by
  constructor
  · constructor
    · exact le_refl 0
    · norm_num
  · exact lt_irrefl 0

/-- C9 fails on the code at configured delay `0`: `UniformDelay::next_delay`
calls `gen_range(0, bound_us)` with `bound_us = 0`, an empty range, on which
`rand` panics (modelled as `none`) instead of returning a duration. -/
theorem C9_zero_delay_panics :
    UniformDelay.next_delay 0 { bound_us := 0 } = none := rfl

/-- C9 amended: for every configured delay `delay_ms > 0` the uniform
supplier (built by `create_supplier` with `bound_us = delay_ms * 1000`)
returns normally with a duration in `[0, bound_us)`; at `delay_ms = 0` the
draw panics (see `C9_zero_delay_panics`). -/
theorem C9_uniform_delay_in_range (delay_ms v : Nat) (h : 0 < delay_ms) :
    ∃ d, UniformDelay.next_delay v { bound_us := delay_ms * 1000 } = some d
      ∧ d < delay_ms * 1000 := by
  have hb : 0 < delay_ms * 1000 := by omega
  refine ⟨v % (delay_ms * 1000), ?_, Nat.mod_lt _ hb⟩
  simp [UniformDelay.next_delay, gen_range, hb]

/-- Witness for C9 amended at `delay_ms = 2`, oracle value `4321`. -/
theorem C9_uniform_delay_in_range_witness :
    0 < 2
    ∧ ∃ d, UniformDelay.next_delay 4321 { bound_us := 2 * 1000 } = some d
        ∧ d < 2 * 1000 :=
  ⟨by decide, C9_uniform_delay_in_range 2 4321 (by decide)⟩

/-! ### Helper lemmas: the worker statistics loop -/

/-- Is this outcome an `Ok` response with status code `c`? -/
def isOkWith (c : Nat) : UreqResult → Bool
  | .ok s _ _ => decide (s = c)
  | _ => false

/-- Is this outcome the `Error::Status` arm (received response, code ≥ 400)? -/
def isErrStatus : UreqResult → Bool
  | .errStatus _ => true
  | _ => false

/-- Is this outcome an `Ok` response whose body failed to drain? -/
def isDrainErr : UreqResult → Bool
  | .ok _ e _ => e
  | _ => false

lemma addU32_addU32 (a b k : Nat) :
    addU32 (addU32 a b) k = addU32 a (b + k) := by
  simp only [addU32]
  rw [Nat.mod_add_mod, Nat.add_assoc]

lemma addU32_self_lt (a b : Nat) : addU32 a b < 2 ^ 32 := by
  simp only [addU32]
  exact Nat.mod_lt _ (by norm_num)

lemma addU32_zero (a : Nat) (h : a < 2 ^ 32) : addU32 a 0 = a := by
  simp only [addU32, Nat.add_zero]
  exact Nat.mod_eq_of_lt h

/-- Component form of the `Ok` arm of `track_response`. -/
lemma track_response_eq_ok (result : BenchResult) (i s d : Nat) (e : Bool) :
    track_response result i (.ok s e d)
      = some { status := fun c =>
                 if c = s then addU32 (result.status c) 1 else result.status c
               request_errors := result.request_errors
               response_errors := if e then addU32 result.response_errors 1
                 else result.response_errors
               latency := result.latency + {d}
               request_times := result.request_times ++ [(i, d)] } := by
  cases e <;> rfl

/-- Component form of the `Error::Status` arm of `track_response`. -/
lemma track_response_eq_errStatus (result : BenchResult) (i code : Nat) :
    track_response result i (.errStatus code)
      = some { status := result.status
               request_errors := addU32 result.request_errors 1
               response_errors := result.response_errors
               latency := result.latency + {0}
               request_times := result.request_times ++ [(i, 0)] } := rfl

/-- A worker that has already panicked stays panicked for the rest of the
draw list. -/
lemma foldl_track_none (draws : List (Nat × UreqResult)) :
    draws.foldl (fun acc d => acc.bind (fun r => track_response r d.1 d.2))
      none = none := by
  induction draws with
  | nil => rfl
  | cons d rest ih => simpa using ih

/-- Totalisation of one tracking step, used to factor the worker loop: on the
two non-panicking outcomes it agrees with `track_response`
(`track_response_eq_total`); its value on `errTransport` is never used. -/
def track_total (result : BenchResult) (i : Nat) (resp : UreqResult) :
    BenchResult :=
  { status := fun c =>
      if isOkWith c resp then addU32 (result.status c) 1 else result.status c
    request_errors :=
      if isErrStatus resp then addU32 result.request_errors 1
      else result.request_errors
    response_errors :=
      if isDrainErr resp then addU32 result.response_errors 1
      else result.response_errors
    latency := result.latency + {resp.trackedDuration}
    request_times := result.request_times ++ [(i, resp.trackedDuration)] }

lemma track_response_eq_total (result : BenchResult) (i : Nat)
    (resp : UreqResult) (h : resp ≠ .errTransport) :
    track_response result i resp = some (track_total result i resp) := by
  cases resp with
  | ok s e dur =>
      rw [track_response_eq_ok]
      apply congrArg some
      have hstat : (fun c =>
            if c = s then addU32 (result.status c) 1 else result.status c)
          = fun c => if isOkWith c (.ok s e dur) then addU32 (result.status c) 1
              else result.status c := by
        funext c
        by_cases hcs : c = s
        · rw [if_pos hcs, if_pos]
          simp [isOkWith, hcs]
        · rw [if_neg hcs, if_neg]
          simp only [isOkWith, decide_eq_true_eq]
          exact fun hsc => hcs hsc.symm
      cases e <;>
        simp only [track_total, hstat, isErrStatus, isDrainErr,
          UreqResult.trackedDuration, Bool.false_eq_true, if_false, if_pos]
  | errStatus code =>
      rw [track_response_eq_errStatus]
      rfl
  | errTransport => exact absurd rfl h

/-- The worker loop over transport-failure-free draws never panics: it is the
plain fold of the totalised step. -/
lemma foldl_track_eq_total (draws : List (Nat × UreqResult)) :
    ∀ r0 : BenchResult, (∀ p ∈ draws, p.2 ≠ .errTransport) →
      draws.foldl (fun acc d => acc.bind (fun r => track_response r d.1 d.2))
          (some r0)
        = some (draws.foldl (fun r d => track_total r d.1 d.2) r0) := by
  induction draws with
  | nil => intro r0 _; rfl
  | cons d rest ih =>
      intro r0 hnt
      rw [List.foldl_cons, List.foldl_cons,
        show (some r0).bind (fun r => track_response r d.1 d.2)
          = track_response r0 d.1 d.2 from rfl,
        track_response_eq_total r0 d.1 d.2 (hnt d (by simp))]
      exact ih _ (fun p hp => hnt p (by simp [hp]))

lemma foldl_total_request_errors (draws : List (Nat × UreqResult)) :
    ∀ r0 : BenchResult, r0.request_errors < 2 ^ 32 →
      (draws.foldl (fun r d => track_total r d.1 d.2) r0).request_errors
        = addU32 r0.request_errors
            (draws.countP (fun p => isErrStatus p.2)) := by
  induction draws with
  | nil => intro r0 h; rw [List.foldl_nil, List.countP_nil, addU32_zero _ h]
  | cons d rest ih =>
      intro r0 h
      rw [List.foldl_cons, List.countP_cons]
      by_cases he : isErrStatus d.2 = true
      · rw [ih _ (by simp [track_total, he]; exact addU32_self_lt _ _)]
        simp only [track_total, he, if_pos, if_true]
        rw [addU32_addU32, Nat.add_comm 1]
      · rw [ih _ (by simp [track_total, he]; exact h)]
        simp only [track_total, he, Bool.false_eq_true, if_false,
          Nat.add_zero]

lemma foldl_total_response_errors (draws : List (Nat × UreqResult)) :
    ∀ r0 : BenchResult, r0.response_errors < 2 ^ 32 →
      (draws.foldl (fun r d => track_total r d.1 d.2) r0).response_errors
        = addU32 r0.response_errors
            (draws.countP (fun p => isDrainErr p.2)) := by
  induction draws with
  | nil => intro r0 h; rw [List.foldl_nil, List.countP_nil, addU32_zero _ h]
  | cons d rest ih =>
      intro r0 h
      rw [List.foldl_cons, List.countP_cons]
      by_cases he : isDrainErr d.2 = true
      · rw [ih _ (by simp [track_total, he]; exact addU32_self_lt _ _)]
        simp only [track_total, he, if_pos, if_true]
        rw [addU32_addU32, Nat.add_comm 1]
      · rw [ih _ (by simp [track_total, he]; exact h)]
        simp only [track_total, he, Bool.false_eq_true, if_false,
          Nat.add_zero]

lemma foldl_total_status (draws : List (Nat × UreqResult)) (c : Nat) :
    ∀ r0 : BenchResult, r0.status c < 2 ^ 32 →
      (draws.foldl (fun r d => track_total r d.1 d.2) r0).status c
        = addU32 (r0.status c)
            (draws.countP (fun p => isOkWith c p.2)) := by
  induction draws with
  | nil => intro r0 h; rw [List.foldl_nil, List.countP_nil, addU32_zero _ h]
  | cons d rest ih =>
      intro r0 h
      rw [List.foldl_cons, List.countP_cons]
      by_cases he : isOkWith c d.2 = true
      · rw [ih _ (by simp [track_total, he]; exact addU32_self_lt _ _)]
        simp only [track_total, he, if_pos, if_true]
        rw [addU32_addU32, Nat.add_comm 1]
      · rw [ih _ (by simp [track_total, he]; exact h)]
        simp only [track_total, he, Bool.false_eq_true, if_false,
          Nat.add_zero]

lemma foldl_total_latency (draws : List (Nat × UreqResult)) :
    ∀ r0 : BenchResult,
      (draws.foldl (fun r d => track_total r d.1 d.2) r0).latency
        = r0.latency
            + (draws.map (fun p => p.2.trackedDuration) : Multiset Nat) := by
  induction draws with
  | nil => intro r0; simp
  | cons d rest ih =>
      intro r0
      rw [List.foldl_cons, ih]
      simp only [track_total, List.map_cons, ← Multiset.cons_coe,
        ← Multiset.singleton_add, add_assoc]

lemma foldl_total_request_times (draws : List (Nat × UreqResult)) :
    ∀ r0 : BenchResult,
      (draws.foldl (fun r d => track_total r d.1 d.2) r0).request_times
        = r0.request_times
            ++ draws.map (fun p => (p.1, p.2.trackedDuration)) := by
  induction draws with
  | nil => intro r0; simp
  | cons d rest ih =>
      intro r0
      rw [List.foldl_cons, ih]
      simp [track_total]

/-! ### Claim theorems C5, C6, C7 (worker outcome handling) -/

/-- C5 fails on the code: after the `match` on the `ureq` outcome,
`run_worker` unconditionally executes `result.latency += duration` and
`result.request_times.push((hb_request.url_index, duration))`, so a request
counted as a request error (here: index 3, outcome `Error::Status(500, _)`)
does land in both: the histogram receives a `0` sample and the sample list
receives the pair `(3, 0)`. -/
theorem C5_request_error_is_recorded :
    (run_worker [(3, .errStatus 500)]).map
        (fun r => (r.request_times, r.latency, r.request_errors))
      = some ([(3, 0)], ({0} : Multiset Nat), 1) := by decide

/-- C5 amended: a request counted as a request error contributes a `0`
duration (never its measured duration) to the latency histogram, and the pair
`(target-index, 0)` to the per-request sample list; in a transport-free run,
`request_times` holds one pair per draw and the histogram holds exactly the
tracked durations, which are `0` for every request error. -/
theorem C5_request_error_zero_duration (draws : List (Nat × UreqResult))
    (h : ∀ p ∈ draws, p.2 ≠ .errTransport) :
    ∃ r, run_worker draws = some r
      ∧ r.request_times = draws.map (fun p => (p.1, p.2.trackedDuration))
      ∧ r.latency = (draws.map (fun p => p.2.trackedDuration) : Multiset Nat)
      ∧ ∀ p ∈ draws, isErrStatus p.2 = true → p.2.trackedDuration = 0 := by
  have hrun : run_worker draws
      = some (draws.foldl (fun r d => track_total r d.1 d.2) BenchResult.new) :=
    foldl_track_eq_total draws BenchResult.new h
  refine ⟨_, hrun, ?_, ?_, ?_⟩
  · rw [foldl_total_request_times]
    rfl
  · rw [foldl_total_latency]
    rfl
  · intro p _ hp
    cases hp2 : p.2 <;> simp_all [isErrStatus, UreqResult.trackedDuration]

/-- Witness for C5 amended: one request error and one success. -/
theorem C5_request_error_zero_duration_witness :
    ∃ r, run_worker [(3, .errStatus 500), (1, .ok 200 false 7)] = some r
      ∧ r.request_times = [(3, 0), (1, 7)]
      ∧ r.latency = ({0, 7} : Multiset Nat)
      ∧ ∀ p ∈ [((3 : Nat), UreqResult.errStatus 500),
          ((1 : Nat), UreqResult.ok 200 false 7)],
          isErrStatus p.2 = true → p.2.trackedDuration = 0 := by
  obtain ⟨r, h1, h2, h3, h4⟩ := C5_request_error_zero_duration
    [(3, .errStatus 500), (1, .ok 200 false 7)] (by decide)
  exact ⟨r, h1, h2, h3, h4⟩

/-- C6 fails on the code: the `Error::Transport` arm of `run_worker` is
`panic!`, so a transport-level failure (connection refused, etc.) aborts the
worker on its very first draw instead of being counted. -/
theorem C6_transport_error_aborts :
    run_worker [(0, .errTransport)] = none := rfl

/-- C6 amended: on every outcome other than a transport-level failure the
worker does not abort: HTTP-status errors and body-drain failures are
counted and the loop proceeds through every remaining draw (one sample pair
per draw), after which the worker's local result is still merged into the
aggregate (`merge_results` folds it in via `add_to`).  A transport-level
failure, by contrast, panics (`C6_transport_error_aborts`). -/
theorem C6_worker_survives_request_failures (draws : List (Nat × UreqResult))
    (h : ∀ p ∈ draws, p.2 ≠ .errTransport) :
    ∃ r, run_worker draws = some r
      ∧ r.request_times.length = draws.length
      ∧ r.request_errors = draws.countP (fun p => isErrStatus p.2) % 2 ^ 32
      ∧ r.response_errors = draws.countP (fun p => isDrainErr p.2) % 2 ^ 32
      ∧ ∀ rs : List BenchResult,
          merge_results (rs ++ [r]) = r.add_to (merge_results rs) := by
  have hrun : run_worker draws
      = some (draws.foldl (fun r d => track_total r d.1 d.2) BenchResult.new) :=
    foldl_track_eq_total draws BenchResult.new h
  refine ⟨_, hrun, ?_, ?_, ?_, ?_⟩
  · rw [foldl_total_request_times]
    simp [BenchResult.new]
  · rw [foldl_total_request_errors draws BenchResult.new (by decide)]
    simp [BenchResult.new, addU32]
  · rw [foldl_total_response_errors draws BenchResult.new (by decide)]
    simp [BenchResult.new, addU32]
  · intro rs
    rw [merge_results, merge_results, List.foldl_append, List.foldl_cons,
      List.foldl_nil]

/-- Witness for C6 amended: a status error, a drain failure and a success. -/
theorem C6_worker_survives_request_failures_witness :
    ∃ r, run_worker
        [(0, .errStatus 503), (1, .ok 200 true 4), (2, .ok 204 false 6)]
        = some r
      ∧ r.request_times.length = 3
      ∧ r.request_errors = 1 % 2 ^ 32
      ∧ r.response_errors = 1 % 2 ^ 32
      ∧ ∀ rs : List BenchResult,
          merge_results (rs ++ [r]) = r.add_to (merge_results rs) := by
  obtain ⟨r, h1, h2, h3, h4, h5⟩ := C6_worker_survives_request_failures
    [(0, .errStatus 503), (1, .ok 200 true 4), (2, .ok 204 false 6)]
    (by decide)
  exact ⟨r, h1, h2, h3, h4, h5⟩

/-- C7 fails on the code: a received response whose status line carries 404
(`ureq` returns it as `Error::Status(404, response)`) increments
`request_errors` and is *not* tallied into the status-code map. -/
theorem C7_status_line_counted_as_request_error :
    UreqResult.hasStatusLine (.errStatus 404) = true
    ∧ (run_worker [(0, .errStatus 404)]).map
        (fun r => (r.request_errors, r.status 404))
      = some (1, 0) := by decide

/-- C7 amended: `request_errors` counts exactly the received responses with
status `≥ 400` (`ureq`'s `Error::Status` outcomes), whose status codes are
not tallied; only `Ok` responses (status `< 400`) are tallied into the
status-code map; and a transport-level failure (no response at all) does not
increment `request_errors` — it panics, aborting the worker. -/
theorem C7_request_errors_are_status_errors :
    (∀ draws : List (Nat × UreqResult),
      (∀ p ∈ draws, p.2 ≠ .errTransport) →
      ∃ r, run_worker draws = some r
        ∧ r.request_errors = draws.countP (fun p => isErrStatus p.2) % 2 ^ 32
        ∧ ∀ c, r.status c = draws.countP (fun p => isOkWith c p.2) % 2 ^ 32)
    ∧ ∀ (l1 l2 : List (Nat × UreqResult)) (i : Nat),
        run_worker (l1 ++ (i, .errTransport) :: l2) = none := by
  constructor
  · intro draws h
    have hrun : run_worker draws
        = some (draws.foldl (fun r d => track_total r d.1 d.2) BenchResult.new) :=
      foldl_track_eq_total draws BenchResult.new h
    refine ⟨_, hrun, ?_, ?_⟩
    · rw [foldl_total_request_errors draws BenchResult.new (by decide)]
      simp [BenchResult.new, addU32]
    · intro c
      have hz : BenchResult.new.status c = 0 := rfl
      rw [foldl_total_status draws c BenchResult.new (by rw [hz]; norm_num)]
      simp [BenchResult.new, addU32]
  · intro l1 l2 i
    rw [run_worker, List.foldl_append, List.foldl_cons]
    have hstep : ∀ acc : Option BenchResult,
        (acc.bind fun r => track_response r (i, UreqResult.errTransport).1
          (i, UreqResult.errTransport).2) = none := by
      intro acc
      cases acc <;> rfl
    rw [hstep]
    exact foldl_track_none l2

/-- Witness for C7 amended: a 404 and a 200 (and, for the transport part,
concrete surrounding draw lists). -/
theorem C7_request_errors_are_status_errors_witness :
    (∃ r, run_worker [(0, .errStatus 404), (1, .ok 200 false 5)] = some r
      ∧ r.request_errors = 1 % 2 ^ 32
      ∧ ∀ c, r.status c
          = [((0 : Nat), UreqResult.errStatus 404),
             ((1 : Nat), UreqResult.ok 200 false 5)].countP
              (fun p => isOkWith c p.2) % 2 ^ 32)
    ∧ run_worker [(0, .ok 200 false 5), (1, .errTransport)] = none := by
  have h := C7_request_errors_are_status_errors
  constructor
  · exact h.1 [(0, .errStatus 404), (1, .ok 200 false 5)] (by decide)
  · exact h.2 [(0, .ok 200 false 5)] [] 1

/-! ### Claim theorem C2 (merge order independence) -/

lemma addU32_right_comm (a b k : Nat) :
    addU32 (addU32 a b) k = addU32 (addU32 a k) b := by
  rw [addU32_addU32, addU32_addU32, Nat.add_comm b k]

/-- Agreement of two aggregates on everything except the order of the
per-request sample list: identical status-code totals, identical error
totals, identical latency histograms (hence identical percentile values),
and sample lists equal up to permutation. -/
def BenchResult.MergeEquiv (a b : BenchResult) : Prop :=
  a.status = b.status
    ∧ a.request_errors = b.request_errors
    ∧ a.response_errors = b.response_errors
    ∧ a.latency = b.latency
    ∧ a.request_times.Perm b.request_times

lemma mergeEquiv_refl (a : BenchResult) : a.MergeEquiv a :=
  ⟨rfl, rfl, rfl, rfl, List.Perm.refl _⟩

lemma mergeEquiv_trans {a b c : BenchResult} (h1 : a.MergeEquiv b)
    (h2 : b.MergeEquiv c) : a.MergeEquiv c :=
  ⟨h1.1.trans h2.1, h1.2.1.trans h2.2.1, h1.2.2.1.trans h2.2.2.1,
   h1.2.2.2.1.trans h2.2.2.2.1, h1.2.2.2.2.trans h2.2.2.2.2⟩

lemma add_to_congr {a b : BenchResult} (x : BenchResult)
    (h : a.MergeEquiv b) : (x.add_to a).MergeEquiv (x.add_to b) := by
  obtain ⟨h1, h2, h3, h4, h5⟩ := h
  refine ⟨?_, ?_, ?_, ?_, ?_⟩ <;>
    simp only [BenchResult.add_to, h1, h2, h3, h4]
  exact h5.append_right _

lemma add_to_swap (x y a : BenchResult) :
    (y.add_to (x.add_to a)).MergeEquiv (x.add_to (y.add_to a)) := by
  refine ⟨?_, ?_, ?_, ?_, ?_⟩ <;>
    simp only [BenchResult.add_to]
  · funext c
    exact addU32_right_comm _ _ _
  · exact addU32_right_comm _ _ _
  · exact addU32_right_comm _ _ _
  · exact add_right_comm _ _ _
  · rw [List.append_assoc, List.append_assoc]
    exact List.Perm.append_left _ (List.perm_append_comm)

lemma foldl_add_to_congr {a b : BenchResult} (l : List BenchResult)
    (h : a.MergeEquiv b) :
    (l.foldl (fun merged result => result.add_to merged) a).MergeEquiv
      (l.foldl (fun merged result => result.add_to merged) b) := by
  induction l generalizing a b with
  | nil => exact h
  | cons x t ih => exact ih (add_to_congr x h)

lemma foldl_add_to_perm {l1 l2 : List BenchResult} (h : l1.Perm l2) :
    ∀ a : BenchResult,
      (l1.foldl (fun merged result => result.add_to merged) a).MergeEquiv
        (l2.foldl (fun merged result => result.add_to merged) a) := by
  induction h with
  | nil => exact fun a => mergeEquiv_refl _
  | cons x _ ih => exact fun a => ih (x.add_to a)
  | swap x y l => exact fun a => foldl_add_to_congr l (add_to_swap y x a)
  | trans _ _ ih1 ih2 => exact fun a => mergeEquiv_trans (ih1 a) (ih2 a)

/-- C2: accumulating the workers' local results in any permutation of the
workers yields identical status-code totals, identical request/response
error totals and an identical merged latency histogram — hence identical
percentile values under every percentile query — and sample lists that
differ at most in order. -/
theorem C2_merge_order_independent (l1 l2 : List BenchResult)
    (h : l1.Perm l2) :
    (merge_results l1).status = (merge_results l2).status
      ∧ (merge_results l1).request_errors = (merge_results l2).request_errors
      ∧ (merge_results l1).response_errors
          = (merge_results l2).response_errors
      ∧ (merge_results l1).latency = (merge_results l2).latency
      ∧ (∀ percentile : Multiset Nat → Nat,
          percentile (merge_results l1).latency
            = percentile (merge_results l2).latency)
      ∧ (merge_results l1).request_times.Perm
          (merge_results l2).request_times := by
  obtain ⟨h1, h2, h3, h4, h5⟩ := foldl_add_to_perm h BenchResult.new
  exact ⟨h1, h2, h3, h4, fun percentile => congrArg percentile h4, h5⟩

/-- A concrete worker result for the C2 witness. -/
def workerA : BenchResult :=
  { status := fun c => if c = 200 then 2 else 0
    request_errors := 1
    response_errors := 0
    latency := {3, 5}
    request_times := [(0, 3), (1, 5)] }

/-- A second concrete worker result for the C2 witness. -/
def workerB : BenchResult :=
  { status := fun c => if c = 500 then 1 else 0
    request_errors := 0
    response_errors := 1
    latency := {7}
    request_times := [(2, 7)] }

/-- Witness for C2: merging `[workerA, workerB]` and `[workerB, workerA]`. -/
theorem C2_merge_order_independent_witness :
    (merge_results [workerA, workerB]).status
        = (merge_results [workerB, workerA]).status
      ∧ (merge_results [workerA, workerB]).request_errors
          = (merge_results [workerB, workerA]).request_errors
      ∧ (merge_results [workerA, workerB]).response_errors
          = (merge_results [workerB, workerA]).response_errors
      ∧ (merge_results [workerA, workerB]).latency
          = (merge_results [workerB, workerA]).latency
      ∧ (∀ percentile : Multiset Nat → Nat,
          percentile (merge_results [workerA, workerB]).latency
            = percentile (merge_results [workerB, workerA]).latency)
      ∧ (merge_results [workerA, workerB]).request_times.Perm
          (merge_results [workerB, workerA]).request_times :=
  C2_merge_order_independent [workerA, workerB] [workerB, workerA]
    (List.Perm.swap workerB workerA [])

/-! ### Helper lemmas: the slow-report grouping -/

/-- The durations of all samples that resolve to the URL `u`, in sample
order: the reference shape of one bucket of `url_stats`. -/
def durationsOf (urls : List String) (rts : List (Nat × Nat)) (u : String) :
    List Nat :=
  rts.filterMap (fun p => if urls.getD p.1 "" = u then some p.2 else none)

lemma durationsOf_cons (urls : List String) (p : Nat × Nat)
    (rts : List (Nat × Nat)) (u : String) :
    durationsOf urls (p :: rts) u
      = if urls.getD p.1 "" = u then p.2 :: durationsOf urls rts u
        else durationsOf urls rts u := by
  simp only [durationsOf, List.filterMap_cons]
  by_cases h : urls.getD p.1 "" = u
  · rw [if_pos h, if_pos h]
  · rw [if_neg h, if_neg h]

lemma mem_durationsOf {urls : List String} {rts : List (Nat × Nat)}
    {u : String} {d : Nat} (h : d ∈ durationsOf urls rts u) :
    ∃ p ∈ rts, p.2 = d := by
  obtain ⟨p, hp, he⟩ := List.mem_filterMap.mp h
  by_cases hc : urls.getD p.1 "" = u
  · rw [if_pos hc] at he
    exact ⟨p, hp, Option.some.inj he⟩
  · rw [if_neg hc] at he
    cases he

lemma lookup_pushDuration (stats : List (String × List Nat))
    (u u' : String) (d : Nat) :
    List.lookup u (pushDuration stats u' d)
      = if u = u' then some (((List.lookup u stats).getD []) ++ [d])
        else List.lookup u stats := by
  induction stats with
  | nil =>
      by_cases h : u = u'
      · subst h
        simp [pushDuration, List.lookup_cons]
      · have hb : (u == u') = false := by simpa using h
        simp [pushDuration, List.lookup_cons, hb, h]
  | cons q rest ih =>
      obtain ⟨v, ds⟩ := q
      rw [show pushDuration ((v, ds) :: rest) u' d
          = if v = u' then (v, ds ++ [d]) :: rest
            else (v, ds) :: pushDuration rest u' d from rfl]
      by_cases hv : v = u'
      · rw [if_pos hv]
        by_cases hu : u = v
        · rw [List.lookup_cons]
          have : (u == v) = true := by simpa using hu
          rw [this]
          have huu' : u = u' := hu.trans hv
          rw [if_pos huu', List.lookup_cons, this]
          rfl
        · rw [List.lookup_cons]
          have hb : (u == v) = false := by simpa using hu
          rw [hb]
          have huu' : u ≠ u' := fun he => hu (he.trans hv.symm)
          rw [if_neg huu', List.lookup_cons, hb]
      · rw [if_neg hv]
        by_cases hu : u = v
        · rw [List.lookup_cons]
          have : (u == v) = true := by simpa using hu
          rw [this]
          have huu' : u ≠ u' := fun he => hv ((hu.symm.trans he).symm ▸ rfl)
          rw [if_neg huu', List.lookup_cons, this]
        · rw [List.lookup_cons]
          have hb : (u == v) = false := by simpa using hu
          rw [hb, ih, List.lookup_cons, hb]

lemma lookup_url_stats_foldl (urls : List String) (rts : List (Nat × Nat)) :
    ∀ (acc : List (String × List Nat)) (u : String),
      List.lookup u
          (rts.foldl (fun st p => pushDuration st (urls.getD p.1 "") p.2) acc)
        = match List.lookup u acc with
          | some ds => some (ds ++ durationsOf urls rts u)
          | none => if durationsOf urls rts u = [] then none
              else some (durationsOf urls rts u) := by
  induction rts with
  | nil =>
      intro acc u
      cases h : List.lookup u acc <;> simp [durationsOf, h]
  | cons p rest ih =>
      intro acc u
      rw [List.foldl_cons, ih, lookup_pushDuration, durationsOf_cons]
      by_cases hc : urls.getD p.1 "" = u
      · rw [if_pos hc, if_pos hc.symm]
        cases h : List.lookup u acc with
        | some ds => simp [List.append_assoc]
        | none => simp
      · rw [if_neg hc, if_neg (fun he => hc he.symm)]

/-- Looking a URL up in the finished grouping yields exactly its durations
(and an entry exists exactly when some sample resolves to it). -/
lemma lookup_url_stats (urls : List String) (rts : List (Nat × Nat))
    (u : String) :
    List.lookup u (url_stats urls rts)
      = if durationsOf urls rts u = [] then none
        else some (durationsOf urls rts u) := by
  have h := lookup_url_stats_foldl urls rts [] u
  rw [url_stats] at *
  rw [h]
  rfl

lemma pushDuration_keys (stats : List (String × List Nat)) (u : String)
    (d : Nat) :
    (pushDuration stats u d).map Prod.fst
      = if u ∈ stats.map Prod.fst then stats.map Prod.fst
        else stats.map Prod.fst ++ [u] := by
  induction stats with
  | nil => simp [pushDuration]
  | cons q rest ih =>
      obtain ⟨v, ds⟩ := q
      rw [show pushDuration ((v, ds) :: rest) u d
          = if v = u then (v, ds ++ [d]) :: rest
            else (v, ds) :: pushDuration rest u d from rfl]
      by_cases hv : v = u
      · rw [if_pos hv]
        have : u ∈ ((v, ds) :: rest).map Prod.fst := by
          simp [hv.symm]
        rw [if_pos this]
        simp
      · rw [if_neg hv]
        by_cases hm : u ∈ rest.map Prod.fst
        · have : u ∈ ((v, ds) :: rest).map Prod.fst := by simp [hm]
          rw [if_pos this]
          simp only [List.map_cons, ih, if_pos hm]
        · have : u ∉ ((v, ds) :: rest).map Prod.fst := by
            simp only [List.map_cons, List.mem_cons]
            rintro (he | hm')
            · exact hv he.symm
            · exact hm hm'
          rw [if_neg this]
          simp only [List.map_cons, ih, if_neg hm, List.cons_append]

/-- The grouping never produces two buckets with the same URL. -/
lemma url_stats_keys_nodup (urls : List String) (rts : List (Nat × Nat)) :
    ((url_stats urls rts).map Prod.fst).Nodup := by
  rw [url_stats]
  have hgen : ∀ (l : List (Nat × Nat)) (acc : List (String × List Nat)),
      (acc.map Prod.fst).Nodup →
      ((l.foldl (fun st p => pushDuration st (urls.getD p.1 "") p.2)
          acc).map Prod.fst).Nodup := by
    intro l
    induction l with
    | nil => intro acc h; exact h
    | cons p rest ih =>
        intro acc h
        rw [List.foldl_cons]
        apply ih
        rw [pushDuration_keys]
        by_cases hm : urls.getD p.1 "" ∈ acc.map Prod.fst
        · rw [if_pos hm]; exact h
        · rw [if_neg hm]
          rw [List.nodup_append]
          exact ⟨h, List.nodup_singleton _, by simpa using hm⟩
  exact hgen rts [] (by simp)

lemma mem_of_lookup_eq_some {stats : List (String × List Nat)} {u : String}
    {ds : List Nat} (h : List.lookup u stats = some ds) : (u, ds) ∈ stats := by
  obtain ⟨l1, l2, rfl, -⟩ := List.lookup_eq_some_iff.mp h
  simp

lemma lookup_of_mem_nodup {stats : List (String × List Nat)} {u : String}
    {ds : List Nat} (hnd : (stats.map Prod.fst).Nodup)
    (h : (u, ds) ∈ stats) : List.lookup u stats = some ds := by
  induction stats with
  | nil => cases h
  | cons q rest ih =>
      obtain ⟨v, e⟩ := q
      rcases List.mem_cons.mp h with he | hm
      · obtain ⟨rfl, rfl⟩ := Prod.mk.injEq .. ▸ he
        · simp [List.lookup_cons]
      · have hv : v ≠ u := by
          intro he
          subst he
          have : v ∈ rest.map Prod.fst :=
            List.mem_map.mpr ⟨(v, ds), hm, rfl⟩
          exact (List.nodup_cons.mp (by simpa using hnd)).1 this
        have hb : (u == v) = false := by
          simpa using fun he => hv he.symm
        rw [List.lookup_cons, hb]
        exact ih (List.nodup_cons.mp (by simpa using hnd)).2 hm

/-- Membership in a finished bucket: its contents are exactly the durations
of its URL, and buckets are never empty. -/
lemma url_stats_mem_char {urls : List String} {rts : List (Nat × Nat)}
    {u : String} {ds : List Nat} (h : (u, ds) ∈ url_stats urls rts) :
    ds = durationsOf urls rts u ∧ ds ≠ [] := by
  have hl := lookup_of_mem_nodup (url_stats_keys_nodup urls rts) h
  rw [lookup_url_stats] at hl
  by_cases he : durationsOf urls rts u = []
  · rw [if_pos he] at hl
    cases hl
  · rw [if_neg he] at hl
    exact ⟨(Option.some.inj hl).symm, fun hds => he ((Option.some.inj hl) ▸
      hds ▸ rfl)⟩

/-- The `(min, max, sum)` triple fold splits into three independent folds. -/
lemma foldStats_eq (ds : List Nat) :
    foldStats ds
      = (ds.foldl Nat.min u64MAX, ds.foldl Nat.max 0,
         ds.foldl (fun s d => (s + d) % 2 ^ 64) 0) := by
  rw [foldStats]
  have hgen : ∀ (l : List Nat) (a b c : Nat),
      l.foldl (fun state d =>
          (Nat.min state.1 d, Nat.max state.2.1 d, (state.2.2 + d) % 2 ^ 64))
        (a, b, c)
      = (l.foldl Nat.min a, l.foldl Nat.max b,
         l.foldl (fun s d => (s + d) % 2 ^ 64) c) := by
    intro l
    induction l with
    | nil => intro a b c; rfl
    | cons e t ih => intro a b c; exact ih (Nat.min a e) (Nat.max b e) _
  exact hgen ds u64MAX 0 0

lemma foldl_min_le_init (ds : List Nat) (a : Nat) :
    ds.foldl Nat.min a ≤ a := by
  induction ds generalizing a with
  | nil => exact le_refl a
  | cons e t ih => exact (ih (Nat.min a e)).trans (Nat.min_le_left a e)

lemma foldl_min_le (ds : List Nat) :
    ∀ d : Nat, d ∈ ds → ∀ a : Nat, ds.foldl Nat.min a ≤ d := by
  induction ds with
  | nil => intro d h; cases h
  | cons e t ih =>
      intro d h a
      rcases List.mem_cons.mp h with rfl | hm
      · exact (foldl_min_le_init t (Nat.min a d)).trans (Nat.min_le_right a d)
      · exact ih d hm (Nat.min a e)

lemma foldl_min_mem (ds : List Nat) :
    ∀ a : Nat, ds.foldl Nat.min a ∈ ds ∨ ds.foldl Nat.min a = a := by
  induction ds with
  | nil => exact fun a => Or.inr rfl
  | cons e t ih =>
      intro a
      rcases ih (Nat.min a e) with hm | he
      · exact Or.inl (List.mem_cons_of_mem e hm)
      · rcases Nat.le_total a e with hle | hle
        · exact Or.inr (he.trans (Nat.min_eq_left hle))
        · refine Or.inl ?_
          rw [List.foldl_cons, he, show Nat.min a e = e by change min a e = e; omega]
          exact List.mem_cons_self e t

lemma foldl_max_init_le (ds : List Nat) :
    ∀ b : Nat, b ≤ ds.foldl Nat.max b := by
  induction ds with
  | nil => exact fun b => le_refl b
  | cons e t ih =>
      exact fun b => (Nat.le_max_left b e).trans (ih (Nat.max b e))

lemma le_foldl_max (ds : List Nat) :
    ∀ d : Nat, d ∈ ds → ∀ a : Nat, d ≤ ds.foldl Nat.max a := by
  induction ds with
  | nil => intro d h; cases h
  | cons e t ih =>
      intro d h a
      rcases List.mem_cons.mp h with rfl | hm
      · exact (Nat.le_max_right a d).trans (foldl_max_init_le t (Nat.max a d))
      · exact ih d hm (Nat.max a e)

lemma foldl_max_mem (ds : List Nat) :
    ∀ a : Nat, ds.foldl Nat.max a ∈ ds ∨ ds.foldl Nat.max a = a := by
  induction ds with
  | nil => exact fun a => Or.inr rfl
  | cons e t ih =>
      intro a
      rcases ih (Nat.max a e) with hm | he
      · exact Or.inl (List.mem_cons_of_mem e hm)
      · rcases Nat.le_total a e with hle | hle
        · refine Or.inl ?_
          rw [List.foldl_cons, he, show Nat.max a e = e by change max a e = e; omega]
          exact List.mem_cons_self e t
        · exact Or.inr (he.trans (Nat.max_eq_left hle))

/-- With every element below the `u64::MAX` seed, the min-fold of a nonempty
list lands in the list. -/
lemma foldl_min_mem_of_ne_nil (ds : List Nat) (hne : ds ≠ [])
    (hb : ∀ d ∈ ds, d ≤ u64MAX) : ds.foldl Nat.min u64MAX ∈ ds := by
  rcases foldl_min_mem ds u64MAX with hm | he
  · exact hm
  · obtain ⟨d0, hd0⟩ := List.exists_mem_of_ne_nil ds hne
    have h1 : ds.foldl Nat.min u64MAX ≤ d0 := foldl_min_le ds d0 hd0 u64MAX
    have h2 : ds.foldl Nat.min u64MAX = d0 :=
      le_antisymm h1 (by rw [he]; exact hb d0 hd0)
    exact h2 ▸ hd0

/-- The max-fold of a nonempty list (seed `0`) lands in the list. -/
lemma foldl_max_mem_of_ne_nil (ds : List Nat) (hne : ds ≠ []) :
    ds.foldl Nat.max 0 ∈ ds := by
  rcases foldl_max_mem ds 0 with hm | he
  · exact hm
  · obtain ⟨d0, hd0⟩ := List.exists_mem_of_ne_nil ds hne
    have h1 : d0 ≤ ds.foldl Nat.max 0 := le_foldl_max ds d0 hd0 0
    have h2 : ds.foldl Nat.max 0 = d0 :=
      le_antisymm (by rw [he]; exact Nat.zero_le d0) h1
    exact h2 ▸ hd0

lemma mem_slowLines_iff (urls : List String) (rts : List (Nat × Nat))
    (lb : Nat) (line : ReportLine) :
    line ∈ slowLines urls rts lb
      ↔ ∃ g ∈ url_stats urls rts, reportLine lb g = some line := by
  simp only [slowLines, List.mem_mergeSort]
  exact List.mem_filterMap

lemma reportLine_some_elim {lb : Nat} {g : String × List Nat}
    {line : ReportLine} (h : reportLine lb g = some line) :
    lb ≤ g.2.foldl Nat.max 0
    ∧ line = { url := g.1, count := g.2.length,
               min := g.2.foldl Nat.min u64MAX,
               max := g.2.foldl Nat.max 0,
               avg := (g.2.foldl (fun s d => (s + d) % 2 ^ 64) 0)
                 / g.2.length } := by
  rw [reportLine, foldStats_eq] at h
  by_cases hm : g.2.foldl Nat.max 0 < lb
  · rw [if_pos hm] at h
    cases h
  · rw [if_neg hm] at h
    exact ⟨Nat.le_of_not_lt hm, (Option.some.inj h).symm⟩

lemma reportLine_some_intro {lb : Nat} (g : String × List Nat)
    (hm : lb ≤ g.2.foldl Nat.max 0) :
    reportLine lb g
      = some { url := g.1, count := g.2.length,
               min := g.2.foldl Nat.min u64MAX,
               max := g.2.foldl Nat.max 0,
               avg := (g.2.foldl (fun s d => (s + d) % 2 ^ 64) 0)
                 / g.2.length } := by
  rw [reportLine, foldStats_eq, if_neg (Nat.not_lt.mpr hm)]

lemma slowLines_pairwise (urls : List String) (rts : List (Nat × Nat))
    (lb : Nat) :
    (slowLines urls rts lb).Pairwise
      (fun l r : ReportLine => r.max ≤ l.max) := by
  have htrans : ∀ a b c : ReportLine,
      decide (b.max ≤ a.max) → decide (c.max ≤ b.max) →
        decide (c.max ≤ a.max) := by
    intro a b c h1 h2
    simp only [decide_eq_true_eq] at *
    omega
  have htotal : ∀ a b : ReportLine,
      decide (b.max ≤ a.max) || decide (a.max ≤ b.max) := by
    intro a b
    rcases Nat.le_total b.max a.max with h | h <;> simp [h]
  have hs := List.sorted_mergeSort htrans htotal
    ((url_stats urls rts).filterMap (reportLine lb))
  rw [slowLines]
  exact hs.imp (fun h => by simpa using h)

/-! ### Claim theorem C10 (the slow-target report) -/

/-- C10: `print_slow_report` groups the per-request samples by target URL
(each bucket holds exactly the durations of its URL, in order, and every
sampled target has a bucket); a report line exists for a target iff its
maximum latency reaches the cutoff `lb` (the histogram value at the chosen
percentile); each line carries that target's `{count, min, max, avg}` (min
and max are genuine extrema of the bucket, `avg = sum / count` in `u64`
arithmetic); lines are sorted by descending max latency; and on the spec's
example — A with latencies `[10, 20, 30]`, B with `[100, 200, 300]`, cutoff
`150` — the report contains exactly B's line.  The hypothesis `h64` records
the `u64` range of every sampled duration. -/
theorem C10_slow_report_correct (urls : List String)
    (rts : List (Nat × Nat)) (lb : Nat)
    (h64 : ∀ p ∈ rts, p.2 ≤ u64MAX) :
    (∀ u ds, (u, ds) ∈ url_stats urls rts
      → ds = durationsOf urls rts u ∧ ds ≠ [])
    ∧ (∀ p ∈ rts, ∃ ds, (urls.getD p.1 "", ds) ∈ url_stats urls rts)
    ∧ (∀ line ∈ slowLines urls rts lb,
        ∃ ds, (line.url, ds) ∈ url_stats urls rts
          ∧ lb ≤ line.max
          ∧ line.count = ds.length
          ∧ line.min ∈ ds ∧ (∀ d ∈ ds, line.min ≤ d)
          ∧ line.max ∈ ds ∧ (∀ d ∈ ds, d ≤ line.max)
          ∧ line.avg
              = (ds.foldl (fun s d => (s + d) % 2 ^ 64) 0) / ds.length)
    ∧ (∀ u ds, (u, ds) ∈ url_stats urls rts → lb ≤ ds.foldl Nat.max 0 →
        ∃ line ∈ slowLines urls rts lb, line.url = u)
    ∧ (∀ u ds, (u, ds) ∈ url_stats urls rts → ds.foldl Nat.max 0 < lb →
        ∀ line ∈ slowLines urls rts lb, line.url ≠ u)
    ∧ (slowLines urls rts lb).Pairwise (fun l r => r.max ≤ l.max)
    ∧ slowLines ["http://A", "http://B"]
        [(0, 10), (0, 20), (0, 30), (1, 100), (1, 200), (1, 300)] 150
        = [{ url := "http://B", count := 3, min := 100, max := 300,
             avg := 200 }] := by
  have hgroup : ∀ u ds, (u, ds) ∈ url_stats urls rts
      → ds = durationsOf urls rts u ∧ ds ≠ [] :=
    fun u ds h => url_stats_mem_char h
  have hbound : ∀ u ds, (u, ds) ∈ url_stats urls rts →
      ∀ d ∈ ds, d ≤ u64MAX := by
    intro u ds h d hd
    obtain ⟨hds, -⟩ := hgroup u ds h
    obtain ⟨p, hp, hpd⟩ := mem_durationsOf (hds ▸ hd)
    exact hpd ▸ h64 p hp
  refine ⟨hgroup, ?_, ?_, ?_, ?_, slowLines_pairwise urls rts lb, ?_⟩
  · intro p hp
    have hmem : p.2 ∈ durationsOf urls rts (urls.getD p.1 "") := by
      apply List.mem_filterMap.mpr
      exact ⟨p, hp, by rw [if_pos rfl]⟩
    have hne : durationsOf urls rts (urls.getD p.1 "") ≠ [] := by
      intro he
      rw [he] at hmem
      cases hmem
    have hl : List.lookup (urls.getD p.1 "") (url_stats urls rts)
        = some (durationsOf urls rts (urls.getD p.1 "")) := by
      rw [lookup_url_stats, if_neg hne]
    exact ⟨_, mem_of_lookup_eq_some hl⟩
  · intro line hline
    obtain ⟨g, hg, hrl⟩ := (mem_slowLines_iff urls rts lb line).mp hline
    obtain ⟨hcut, hfields⟩ := reportLine_some_elim hrl
    obtain ⟨u, ds⟩ := g
    have hne : ds ≠ [] := (hgroup u ds hg).2
    have hb : ∀ d ∈ ds, d ≤ u64MAX := hbound u ds hg
    refine ⟨ds, ?_, ?_, ?_, ?_, ?_, ?_, ?_, ?_⟩
    · rw [hfields]
      exact hg
    · rw [hfields]
      exact hcut
    · rw [hfields]
    · rw [hfields]
      exact foldl_min_mem_of_ne_nil ds hne hb
    · intro d hd
      rw [hfields]
      exact foldl_min_le ds d hd u64MAX
    · rw [hfields]
      exact foldl_max_mem_of_ne_nil ds hne
    · intro d hd
      rw [hfields]
      exact le_foldl_max ds d hd 0
    · rw [hfields]
  · intro u ds hg hcut
    refine ⟨_, (mem_slowLines_iff urls rts lb _).mpr
      ⟨(u, ds), hg, reportLine_some_intro (u, ds) hcut⟩, rfl⟩
  · intro u ds hg hcut line hline he
    obtain ⟨g, hg', hrl⟩ := (mem_slowLines_iff urls rts lb line).mp hline
    obtain ⟨hcut', hfields⟩ := reportLine_some_elim hrl
    obtain ⟨u', ds'⟩ := g
    have hu' : u' = u := by
      rw [hfields] at he
      exact he
    subst hu'
    have hds : ds' = ds := by
      have h1 := lookup_of_mem_nodup (url_stats_keys_nodup urls rts) hg
      have h2 := lookup_of_mem_nodup (url_stats_keys_nodup urls rts) hg'
      exact Option.some.inj (h2.symm.trans h1)
    have hcut2 : lb ≤ ds.foldl Nat.max 0 := by simpa [hds] using hcut'
    omega
  · have hfm : (url_stats ["http://A", "http://B"]
        [(0, 10), (0, 20), (0, 30), (1, 100), (1, 200), (1, 300)]).filterMap
          (reportLine 150)
        = [{ url := "http://B", count := 3, min := 100, max := 300,
             avg := 200 }] := by decide
    rw [slowLines, hfm, List.mergeSort_singleton]

/-- Witness for C10 at the spec's example: targets A (`[10, 20, 30]` ms) and
B (`[100, 200, 300]` ms) with cutoff `150` keep exactly B's line, sorted. -/
theorem C10_slow_report_correct_witness :
    (∀ p ∈ [((0 : Nat), (10 : Nat)), (0, 20), (0, 30), (1, 100), (1, 200),
        (1, 300)], p.2 ≤ u64MAX)
    ∧ slowLines ["http://A", "http://B"]
        [(0, 10), (0, 20), (0, 30), (1, 100), (1, 200), (1, 300)] 150
        = [{ url := "http://B", count := 3, min := 100, max := 300,
             avg := 200 }]
    ∧ (slowLines ["http://A", "http://B"]
        [(0, 10), (0, 20), (0, 30), (1, 100), (1, 200), (1, 300)]
          150).Pairwise (fun l r => r.max ≤ l.max) := by
  have h := C10_slow_report_correct ["http://A", "http://B"]
    [(0, 10), (0, 20), (0, 30), (1, 100), (1, 200), (1, 300)] 150
    (by decide)
  exact ⟨by decide, h.2.2.2.2.2.2, h.2.2.2.2.2.1⟩

end Hb
